import Mathlib

/-!
Verification of the two allocators of this repository against their
natural-language specification.  The C++ code is shallowly embedded:
addresses and sizes are natural numbers, `size_t` arithmetic wraps
modulo `W = 2 ^ 64`, a possibly-null pointer result is an `Option`,
and `std::vector` used as a stack (`push_back` / `back` / `pop_back`)
is a `List` whose head is the vector's back.
-/

namespace Alloc

/-- Modulus of `size_t` arithmetic: the allocators are compiled for a
64-bit target, so `size_t` values wrap modulo `2 ^ 64`. -/
def W : Nat := 2 ^ 64

/-- Shallow embedding of `allocator::LinearAllocator`
(src/Allocator.hpp lines 10-42 and src/allocator.hpp lines 30-63; the
two variants have identical fields and member bodies).  `data` is the
buffer's address, `capacity` and `offset` are byte counts. -/
structure LinearAllocator where
  data : Nat
  capacity : Nat
  offset : Nat
deriving DecidableEq

/-- `reset()`: sets `offset` to 0 and touches nothing else. -/
def LinearAllocator.reset (s : LinearAllocator) : LinearAllocator :=
  { s with offset := 0 }

/-- `init(mem, size)`: binds the buffer, records the capacity, then
calls `reset()`. -/
def LinearAllocator.init (s : LinearAllocator) (mem size : Nat) : LinearAllocator :=
  LinearAllocator.reset { s with data := mem, capacity := size }

/-- `allocate(size)`: the guard `offset + size > capacity` adds two
`size_t` values, so the sum wraps modulo `W` before the comparison; on
success the returned pointer is `data + offset` and `offset` advances
by `size` (again a wrapping `size_t` addition). -/
def LinearAllocator.allocate (s : LinearAllocator) (size : Nat) :
    Option Nat × LinearAllocator :=
  if (s.offset + size) % W > s.capacity then
    (none, s)
  else
    (some (s.data + s.offset), { s with offset := (s.offset + size) % W })

/-- `free(size)`: clamps `size` to `offset` with `std::min`, then
subtracts it from `offset`. -/
def LinearAllocator.free (s : LinearAllocator) (size : Nat) : LinearAllocator :=
  { s with offset := s.offset - min size s.offset }

/-- One call in a client's allocate/free call sequence on a
`LinearAllocator`. -/
inductive LinOp where
  | alloc : Nat → LinOp
  | dealloc : Nat → LinOp
deriving DecidableEq

/-- Run one client call (the result pointer of `allocate` is dropped;
only the allocator state is threaded). -/
def applyOp (s : LinearAllocator) : LinOp → LinearAllocator
  | .alloc k => (s.allocate k).2
  | .dealloc k => s.free k

/-- Run a whole client call sequence. -/
def applyOps (s : LinearAllocator) : List LinOp → LinearAllocator
  | [] => s
  | op :: ops => applyOps (applyOp s op) ops

/-- A slot address handed out by `BlockAllocator`: the pair
(chunk index, slot index inside the chunk).  Distinct pairs denote
distinct machine addresses exactly as long as every chunk's backing
memory is retained.  In src/Allocator.hpp that holds for the whole
allocator lifetime (`Block` holds a `std::vector<uint8_t>` and is
implicitly movable, so a `blocks` reallocation moves the inner
vectors and leaves the heap buffers stable and pairwise disjoint).
In src/allocator.hpp it does not: a `blocks` reallocation frees
existing chunks' memory mid-life (see `BlockStateMem`), after which
the backing allocator may place a later chunk in a released region,
so distinct pairs can alias one address there. -/
abbrev Ptr := Nat × Nat

/-- State of `allocator::BlockAllocator<T, N>`
(src/Allocator.hpp lines 45-87 and src/allocator.hpp lines 70-122).
`numBlocks` is `blocks.size()`; `free_list` is the free-list vector
with its `back()` at the head of the list.  `live` is a ghost history
field recording the slots that currently hold a constructed `T`
(placement-new in `allocate` adds one, `~T` in `free` removes it); the
C++ object itself stores only `blocks` and `free_list`.  This state is
the allocator's bookkeeping view: it omits the chunk-memory lifecycle,
which is exact for src/Allocator.hpp (chunk buffers are stable) and is
refined for src/allocator.hpp by `BlockStateMem`, whose growth also
carries the `vector<Block>` reallocation side effects. -/
structure BlockState where
  numBlocks : Nat
  free_list : List Ptr
  live : List Ptr
deriving DecidableEq

/-- A freshly constructed `BlockAllocator`: no chunks, empty free
list, nothing live. -/
def BlockState.fresh : BlockState := ⟨0, [], []⟩

/-- `allocate_block()` (src/Allocator.hpp lines 77-86) and the inlined
growth branch (src/allocator.hpp lines 95-101): append one chunk of
`N` raw slots and `push_back` its slot addresses in index order
`0, …, N-1`, so afterwards `back()` is slot `N - 1` of the new
chunk. -/
def BlockState.allocate_block (N : Nat) (s : BlockState) : BlockState :=
  { s with
      numBlocks := s.numBlocks + 1
      free_list :=
        ((List.range N).map (fun i => (s.numBlocks, i))).reverse ++ s.free_list }

/-- `allocate(args...)`: grow by one chunk when the free list is
empty, then pop `back()` and construct a `T` there with placement
new.  The `[]` branch is `back()` on an empty vector (reachable only
with `N = 0`), undefined behaviour in C++, modelled as `none`.  The
growth branch models `blocks.emplace_back()` as bookkeeping only
(one more chunk); the reallocation side effects it has in
src/allocator.hpp — copy-destroyed `Block`s freeing live chunks'
memory — are modelled by `BlockStateMem.allocate`. -/
def BlockState.allocate (N : Nat) (s : BlockState) : Option Ptr × BlockState :=
  let s1 := if s.free_list.isEmpty then s.allocate_block N else s
  match s1.free_list with
  | [] => (none, s1)
  | p :: rest => (some p, ⟨s1.numBlocks, rest, p :: s1.live⟩)

/-- `free(ptr)` of the src/allocator.hpp variant (lines 108-111): run
`ptr->~T()` and `push_back` the address onto the free list. -/
def BlockState.free (s : BlockState) (p : Ptr) : BlockState :=
  ⟨s.numBlocks, p :: s.free_list, s.live.erase p⟩

/-- `free(ptr)` of the src/Allocator.hpp variant (lines 68-73): a null
pointer (`none`) is checked and ignored.  The second component lists
the destructor calls the operation performs. -/
def BlockState.freeChecked (s : BlockState) (p : Option Ptr) :
    BlockState × List Ptr :=
  match p with
  | none => (s, [])
  | some q => (s.free q, [q])

/-- `~BlockAllocator()` (src/allocator.hpp lines 114-121): the slots
on which the teardown loop invokes `~T` — every slot of every chunk,
unconditionally, with no regard to the free list. -/
def BlockState.teardownDtorCalls (N : Nat) (s : BlockState) : List Ptr :=
  (List.range s.numBlocks).flatMap (fun b => (List.range N).map (fun i => (b, i)))

/-- The allocator state after `k` successive `allocate()` calls on a
freshly constructed `BlockAllocator<T, N>`. -/
def BlockState.afterK (N : Nat) : Nat → BlockState
  | 0 => BlockState.fresh
  | k + 1 => ((BlockState.afterK N k).allocate N).2

/-- States a `BlockAllocator<T, N>` can reach under caller
discipline: starting fresh, any `allocate`, and `free` only on a
currently live pointer (never the same address twice without an
intervening `allocate` returning it, since `free` removes the address
from `live`). -/
inductive Reachable (N : Nat) : BlockState → Prop where
  | start : Reachable N BlockState.fresh
  | alloc (s : BlockState) : Reachable N s → Reachable N (s.allocate N).2
  | dealloc (s : BlockState) (p : Ptr) :
      Reachable N s → p ∈ s.live → Reachable N (s.free p)

/-- The slot-state partition invariant of the spec's data model: no
address appears twice across the free list and the live set, and
every recorded address lies in an existing chunk. -/
def BlockInv (s : BlockState) : Prop :=
  (s.free_list ++ s.live).Nodup ∧
  ∀ p ∈ s.free_list ++ s.live, p.1 < s.numBlocks

/-- State of `allocator::BlockAllocator<T, N>` of src/allocator.hpp
with the chunk-memory lifecycle made explicit.  Besides the
`BlockState` fields, `cap` is the capacity of the
`std::vector<Block> blocks`, and `released` records, one entry per
`~Block` run during a `blocks` reallocation, the index of the chunk
whose backing memory that run handed back to the backing allocator —
a repeated index is a double free of the same region. -/
structure BlockStateMem where
  numBlocks : Nat
  cap : Nat
  free_list : List Ptr
  live : List Ptr
  released : List Nat
deriving DecidableEq

/-- A freshly constructed allocator: `blocks` is an empty vector of
capacity 0. -/
def BlockStateMem.fresh : BlockStateMem := ⟨0, 0, [], [], []⟩

/-- The growth branch of `allocate` (src/allocator.hpp lines 95-101)
with `blocks.emplace_back()` modelled in full.  When the vector is at
capacity it reallocates — capacity 0 becomes 1, otherwise it doubles,
as in libstdc++ and libc++ (`reserve` is never called on `blocks`, so
a reallocation with existing elements happens at every growth after
the first).  `Block` has a user-declared destructor (lines 81-85) and
hence no move constructor, so the reallocation copies every existing
`Block` — the copy sharing the original's span — and then destroys
the originals, each `~Block` freeing its chunk's backing memory
(recorded in `released`) while the chunk's slots may still be live;
the surviving copies' spans dangle and are freed again at the next
reallocation.  The new chunk's slot addresses are then pushed exactly
as in `BlockState.allocate_block`. -/
def BlockStateMem.grow (N : Nat) (s : BlockStateMem) : BlockStateMem :=
  { numBlocks := s.numBlocks + 1,
    cap := if s.numBlocks = s.cap then max 1 (2 * s.cap) else s.cap,
    free_list :=
      ((List.range N).map (fun i => (s.numBlocks, i))).reverse ++ s.free_list,
    live := s.live,
    released :=
      if s.numBlocks = s.cap then s.released ++ List.range s.numBlocks
      else s.released }

/-- `allocate(args...)` of src/allocator.hpp over `BlockStateMem`:
the same pop-and-construct as `BlockState.allocate`, but growth
carries the reallocation side effects. -/
def BlockStateMem.allocate (N : Nat) (s : BlockStateMem) :
    Option Ptr × BlockStateMem :=
  let s1 := if s.free_list.isEmpty then s.grow N else s
  match s1.free_list with
  | [] => (none, s1)
  | p :: rest => (some p, { s1 with free_list := rest, live := p :: s1.live })

/-- The `BlockStateMem` state after `k` successive `allocate()` calls
on a freshly constructed `BlockAllocator<T, N>` of
src/allocator.hpp. -/
def afterKMem (N : Nat) : Nat → BlockStateMem
  | 0 => BlockStateMem.fresh
  | k + 1 => ((afterKMem N k).allocate N).2

/-- `allocate` computed on the success path: when the (unwrapped) sum
`offset + size` fits in the capacity and the capacity is a `size_t`
value, the guard is false. -/
lemma LinearAllocator.allocate_eq_of_le (s : LinearAllocator) (k : Nat)
    (hc : s.capacity < W) (h : s.offset + k ≤ s.capacity) :
    s.allocate k = (some (s.data + s.offset), ⟨s.data, s.capacity, s.offset + k⟩) := by
  have hm : (s.offset + k) % W = s.offset + k :=
    Nat.mod_eq_of_lt (lt_of_le_of_lt h hc)
  simp only [LinearAllocator.allocate, hm]
  rw [if_neg (by omega)]

/-- `allocate` computed on the failure path: when the wrapped guard
sum exceeds the capacity, the call returns the sentinel and the state
untouched. -/
lemma LinearAllocator.allocate_eq_of_gt (s : LinearAllocator) (k : Nat)
    (h : (s.offset + k) % W > s.capacity) :
    s.allocate k = (none, s) := by
  simp only [LinearAllocator.allocate, if_pos h]

/-- No operation changes `data` or `capacity`: `allocate` and `free`
only move `offset`. -/
lemma applyOps_data_capacity (s : LinearAllocator) (ops : List LinOp) :
    (applyOps s ops).data = s.data ∧ (applyOps s ops).capacity = s.capacity := by
  induction ops generalizing s with
  | nil => exact ⟨rfl, rfl⟩
  | cons op ops ih =>
    have step : (applyOp s op).data = s.data ∧ (applyOp s op).capacity = s.capacity := by
      cases op with
      | alloc k =>
        simp only [applyOp, LinearAllocator.allocate]
        split <;> simp
      | dealloc k => simp [applyOp, LinearAllocator.free]
    have h2 := ih (applyOp s op)
    simp only [applyOps]
    exact ⟨h2.1.trans step.1, h2.2.trans step.2⟩

/-- C3: for every LinearAllocator state whose capacity is a `size_t`
value and every requested size with `offset + size ≤ capacity`,
`allocate(size)` returns the pointer `data + offset` and sets `offset`
to `offset + size`, leaving `data` and `capacity` unchanged. -/
theorem linear_allocate_success (s : LinearAllocator) (k : Nat)
    (hc : s.capacity < W) (h : s.offset + k ≤ s.capacity) :
    s.allocate k = (some (s.data + s.offset), ⟨s.data, s.capacity, s.offset + k⟩) :=
  LinearAllocator.allocate_eq_of_le s k hc h

/-- Witness for `linear_allocate_success` at `data = 100`,
`capacity = 10`, `offset = 3`, `size = 4`. -/
theorem linear_allocate_success_witness :
    (⟨100, 10, 3⟩ : LinearAllocator).allocate 4 = (some 103, ⟨100, 10, 7⟩) :=
  linear_allocate_success ⟨100, 10, 3⟩ 4 (by norm_num [W]) (by norm_num)

/-- C2 (counterexample): the claim quantifies over the true
unbounded-integer sum `offset + size`, but the C++ guard adds two
`size_t` values, which wraps.  At `capacity = 1`, `offset = 1`,
`size = 2^64 - 1` the true sum `2^64` exceeds the capacity, yet
`allocate` succeeds, returns `data + offset = 1`, and wraps `offset`
to 0 — not the failure sentinel with unchanged state the claim
requires. -/
theorem linear_allocate_overflow_counterexample :
    1 + (2 ^ 64 - 1) > (1 : Nat) ∧
    (⟨0, 1, 1⟩ : LinearAllocator).allocate (2 ^ 64 - 1) = (some 1, ⟨0, 1, 0⟩) := by
  constructor
  · norm_num
  · decide

/-- C2 (amended): whenever the machine-word sum
`(offset + size) % 2^64` exceeds `capacity`, `allocate(size)` returns
the failure sentinel and leaves the whole state unchanged; and for
every capacity with `capacity + 1 < 2^64`, after `init`,
`allocate(capacity)` succeeds and the following `allocate(1)`
fails. -/
theorem linear_allocate_exhaustion :
    (∀ (s : LinearAllocator) (k : Nat),
      (s.offset + k) % W > s.capacity → s.allocate k = (none, s)) ∧
    (∀ (s : LinearAllocator) (mem c : Nat), c + 1 < W →
      ((s.init mem c).allocate c).1 = some mem ∧
      (((s.init mem c).allocate c).2.allocate 1).1 = none) := by
  constructor
  · intro s k h
    exact LinearAllocator.allocate_eq_of_gt s k h
  · intro s mem c hc
    have hinit : s.init mem c = (⟨mem, c, 0⟩ : LinearAllocator) := rfl
    have h1 := LinearAllocator.allocate_eq_of_le (⟨mem, c, 0⟩ : LinearAllocator) c
      (by show c < W; omega) (by show 0 + c ≤ c; omega)
    rw [hinit, h1]
    refine ⟨by simp, ?_⟩
    have hgt : ((0 + c) + 1) % W > c := by
      rw [Nat.mod_eq_of_lt (by omega)]
      omega
    rw [LinearAllocator.allocate_eq_of_gt (⟨mem, c, 0 + c⟩ : LinearAllocator) 1 hgt]

/-- Witness for `linear_allocate_exhaustion`: the guard branch at
`offset = 3`, `size = 7`, `capacity = 5`, and exact exhaustion at
`capacity = 5` after `init(mem = 40, 5)`. -/
theorem linear_allocate_exhaustion_witness :
    ((⟨0, 5, 3⟩ : LinearAllocator).allocate 7 = (none, ⟨0, 5, 3⟩)) ∧
    (((⟨9, 9, 9⟩ : LinearAllocator).init 40 5).allocate 5).1 = some 40 ∧
    ((((⟨9, 9, 9⟩ : LinearAllocator).init 40 5).allocate 5).2.allocate 1).1 = none :=
  ⟨linear_allocate_exhaustion.1 ⟨0, 5, 3⟩ 7 (by norm_num [W]),
   (linear_allocate_exhaustion.2 ⟨9, 9, 9⟩ 40 5 (by norm_num [W])).1,
   (linear_allocate_exhaustion.2 ⟨9, 9, 9⟩ 40 5 (by norm_num [W])).2⟩

/-- C4: every LinearAllocator operation — `init`, `allocate`, `free`,
`reset` — preserves the invariant `offset ≤ capacity`, for every
argument value, including sizes whose `size_t` addition wraps. -/
theorem linear_invariant_preserved (s : LinearAllocator)
    (hinv : s.offset ≤ s.capacity) :
    (∀ mem k, (s.init mem k).offset ≤ (s.init mem k).capacity) ∧
    (∀ k, ((s.allocate k).2).offset ≤ ((s.allocate k).2).capacity) ∧
    (∀ k, (s.free k).offset ≤ (s.free k).capacity) ∧
    (s.reset).offset ≤ (s.reset).capacity := by
  refine ⟨fun mem k => ?_, fun k => ?_, fun k => ?_, ?_⟩
  · simp [LinearAllocator.init, LinearAllocator.reset]
  · simp only [LinearAllocator.allocate]
    split
    · exact hinv
    · exact Nat.le_of_not_lt (by assumption)
  · simp only [LinearAllocator.free]
    omega
  · simp [LinearAllocator.reset]

/-- Witness for `linear_invariant_preserved`: the `allocate` branch at
`capacity = 10`, `offset = 3`, `size = 4`. -/
theorem linear_invariant_preserved_witness :
    ((⟨0, 10, 3⟩ : LinearAllocator).allocate 4).2.offset ≤
      ((⟨0, 10, 3⟩ : LinearAllocator).allocate 4).2.capacity :=
  (linear_invariant_preserved ⟨0, 10, 3⟩ (by norm_num)).2.1 4

/-- C8: `reset()` sets `offset` to 0 and changes nothing else of the
allocator state (`data` — the buffer binding — and `capacity` are
untouched; no LinearAllocator operation ever reads or writes the
buffer's bytes, so the model carries no byte array), and after any
sequence of `allocate`/`free` calls, `reset()` followed by
`allocate(capacity)` succeeds, returning the buffer base. -/
theorem linear_reset_frame_and_reuse (s : LinearAllocator) (hc : s.capacity < W) :
    s.reset = ⟨s.data, s.capacity, 0⟩ ∧
    ∀ ops : List LinOp,
      ((applyOps s ops).reset.allocate (applyOps s ops).capacity).1
        = some (applyOps s ops).data := by
  refine ⟨rfl, fun ops => ?_⟩
  obtain ⟨hd, hcap⟩ := applyOps_data_capacity s ops
  have h := LinearAllocator.allocate_eq_of_le (applyOps s ops).reset
    (applyOps s ops).capacity
    (by simp only [LinearAllocator.reset]; omega)
    (by simp [LinearAllocator.reset])
  simpa [LinearAllocator.reset] using congrArg Prod.fst h

/-- Witness for `linear_reset_frame_and_reuse`: buffer at 7 of
capacity 4, client sequence `allocate 3` then `free 1`, then `reset`
and a full-capacity `allocate`. -/
theorem linear_reset_frame_and_reuse_witness :
    ((applyOps ⟨7, 4, 0⟩ [LinOp.alloc 3, LinOp.dealloc 1]).reset.allocate
        (applyOps ⟨7, 4, 0⟩ [LinOp.alloc 3, LinOp.dealloc 1]).capacity).1
      = some (applyOps ⟨7, 4, 0⟩ [LinOp.alloc 3, LinOp.dealloc 1]).data :=
  (linear_reset_frame_and_reuse ⟨7, 4, 0⟩ (by norm_num [W])).2
    [LinOp.alloc 3, LinOp.dealloc 1]

/-- C9 (counterexample): the claim covers every state in which
`allocate(k)` succeeds, but success can come from the wrapping guard.
At `capacity = 5`, `offset = 5`, `k = 2^64 - 1` the first
`allocate(k)` succeeds (the `size_t` sum wraps to 4) and returns
address 5, yet after `free(k)` the second `allocate(k)` fails, so the
two calls do not return the same address. -/
theorem linear_alloc_free_alloc_counterexample :
    ((⟨0, 5, 5⟩ : LinearAllocator).allocate (2 ^ 64 - 1)).1 = some 5 ∧
    ((((⟨0, 5, 5⟩ : LinearAllocator).allocate (2 ^ 64 - 1)).2.free
        (2 ^ 64 - 1)).allocate (2 ^ 64 - 1)).1 = none := by
  decide

/-- C9 (amended): from any state whose capacity is a `size_t` value
and in which `allocate(k)` succeeds without the `size_t` sum
`offset + k` wrapping (i.e. `offset + k ≤ capacity`), the sequence
`allocate(k); free(k); allocate(k)` returns the same address
`data + offset` both times and leaves the final state equal to the
state after the first `allocate`. -/
theorem linear_alloc_free_alloc (s : LinearAllocator) (k : Nat)
    (hc : s.capacity < W) (h : s.offset + k ≤ s.capacity) :
    (s.allocate k).1 = some (s.data + s.offset) ∧
    ((s.allocate k).2.free k).allocate k
      = (some (s.data + s.offset), (s.allocate k).2) := by
  have h1 := LinearAllocator.allocate_eq_of_le s k hc h
  have hfree : (⟨s.data, s.capacity, s.offset + k⟩ : LinearAllocator).free k
      = ⟨s.data, s.capacity, s.offset⟩ := by
    simp only [LinearAllocator.free]
    congr 1
    omega
  have heta : (⟨s.data, s.capacity, s.offset⟩ : LinearAllocator) = s := rfl
  constructor
  · rw [h1]
  · rw [h1]
    simp only
    rw [hfree, heta, h1]

/-- Witness for `linear_alloc_free_alloc` at `data = 50`,
`capacity = 8`, `offset = 2`, `k = 3`. -/
theorem linear_alloc_free_alloc_witness :
    ((⟨50, 8, 2⟩ : LinearAllocator).allocate 3).1 = some 52 ∧
    (((⟨50, 8, 2⟩ : LinearAllocator).allocate 3).2.free 3).allocate 3
      = (some 52, ((⟨50, 8, 2⟩ : LinearAllocator).allocate 3).2) :=
  linear_alloc_free_alloc ⟨50, 8, 2⟩ 3 (by norm_num [W]) (by norm_num)

/-- `allocate` with a non-empty free list: no growth, pop `back()`
and construct there. -/
lemma BlockState.allocate_cons (N nB : Nat) (p : Ptr) (rest live : List Ptr) :
    BlockState.allocate N ⟨nB, p :: rest, live⟩ = (some p, ⟨nB, rest, p :: live⟩) :=
  rfl

/-- `allocate` with an empty free list and block size 0: the grown
chunk contributes no slots, so `back()` hits an empty vector. -/
lemma BlockState.allocate_nil_zero (nB : Nat) (live : List Ptr) :
    BlockState.allocate 0 ⟨nB, [], live⟩ = (none, ⟨nB + 1, [], live⟩) :=
  rfl

/-- Unfolding the pushed slot addresses of one growth step: the last
pushed (the vector's `back()`) is slot `M` of the new chunk. -/
lemma rev_map_range_succ (b M : Nat) :
    ((List.range (M + 1)).map (fun i => ((b, i) : Ptr))).reverse
      = (b, M) :: ((List.range M).map (fun i => ((b, i) : Ptr))).reverse := by
  rw [List.range_succ]
  simp

/-- `allocate` with an empty free list and positive block size: one
chunk is appended and its last slot is returned. -/
lemma BlockState.allocate_nil_succ (M nB : Nat) (live : List Ptr) :
    BlockState.allocate (M + 1) ⟨nB, [], live⟩
      = (some (nB, M),
          ⟨nB + 1, ((List.range M).map (fun i => ((nB, i) : Ptr))).reverse,
            (nB, M) :: live⟩) := by
  simp [BlockState.allocate, BlockState.allocate_block, rev_map_range_succ]

/-- Trace of `k` allocations (`1 ≤ k ≤ N`) from a fresh allocator:
one chunk exists and the free list holds the first `N - k` slots of
chunk 0 in index order (back at the head). -/
lemma afterK_spec (N : Nat) :
    ∀ k, 1 ≤ k → k ≤ N →
      ∃ l, BlockState.afterK N k
        = ⟨1, ((List.range (N - k)).map (fun i => ((0, i) : Ptr))).reverse, l⟩ := by
  intro k
  induction k with
  | zero =>
    intro h1 _
    exact absurd h1 (by omega)
  | succ k ih =>
    intro _ hkN
    rcases Nat.eq_zero_or_pos k with h0 | hpos
    · subst h0
      obtain ⟨M, rfl⟩ : ∃ M, N = M + 1 := ⟨N - 1, by omega⟩
      refine ⟨[(0, M)], ?_⟩
      show ((BlockState.afterK (M + 1) 0).allocate (M + 1)).2 = _
      rw [show BlockState.afterK (M + 1) 0 = (⟨0, [], []⟩ : BlockState) from rfl,
        BlockState.allocate_nil_succ]
      simp
    · obtain ⟨l, hl⟩ := ih hpos (by omega)
      obtain ⟨J, hJ⟩ : ∃ J, N - k = J + 1 := ⟨N - k - 1, by omega⟩
      refine ⟨(0, J) :: l, ?_⟩
      show ((BlockState.afterK N k).allocate N).2 = _
      rw [hl, hJ, rev_map_range_succ, BlockState.allocate_cons]
      have hJ2 : N - (k + 1) = J := by omega
      rw [hJ2]

/-- The pointer returned by the `(k+1)`-th allocation (`k < N`) from a
fresh allocator: slot `N - 1 - k` of chunk 0. -/
lemma afterK_alloc_fst (N k : Nat) (hk : k < N) :
    ((BlockState.afterK N k).allocate N).1 = some (0, N - 1 - k) := by
  rcases Nat.eq_zero_or_pos k with h0 | hpos
  · subst h0
    obtain ⟨M, rfl⟩ : ∃ M, N = M + 1 := ⟨N - 1, by omega⟩
    rw [show BlockState.afterK (M + 1) 0 = (⟨0, [], []⟩ : BlockState) from rfl,
      BlockState.allocate_nil_succ]
    simp
  · obtain ⟨l, hl⟩ := afterK_spec N k hpos (by omega)
    obtain ⟨J, hJ⟩ : ∃ J, N - k = J + 1 := ⟨N - k - 1, by omega⟩
    rw [hl, hJ, rev_map_range_succ, BlockState.allocate_cons]
    have hJ2 : N - 1 - k = J := by omega
    rw [hJ2]

/-- After exactly `N` allocations from fresh, the single chunk is
fully handed out: the free list is empty. -/
lemma afterK_N (N : Nat) (hN : 1 ≤ N) :
    ∃ l, BlockState.afterK N N = ⟨1, [], l⟩ := by
  obtain ⟨l, hl⟩ := afterK_spec N N hN (le_refl N)
  refine ⟨l, ?_⟩
  rw [hl]
  simp

/-- C5: from a fresh BlockAllocator with block size `N ≥ 1`, the first
`N` allocations return slots of chunk 0 and leave the chunk count at
1 (no growth after the growth of the very first call), the `(N+1)`-th
call triggers exactly one growth event — the chunk count moves from 1
to 2 — and returns slot `N-1` of chunk 1, a chunk distinct from that
of the first `N` pointers; moreover a chunk is created only when the
free list is empty, and each growth appends exactly one chunk and
pushes its `N` slot addresses onto the free list. -/
theorem block_growth_after_N (N : Nat) (hN : 1 ≤ N) :
    (BlockState.afterK N 1).numBlocks = 1 ∧
    (BlockState.afterK N N).numBlocks = 1 ∧
    (BlockState.afterK N (N + 1)).numBlocks = 2 ∧
    (∀ k, k < N → ((BlockState.afterK N k).allocate N).1 = some (0, N - 1 - k)) ∧
    ((BlockState.afterK N N).allocate N).1 = some (1, N - 1) ∧
    (∀ s : BlockState, s.free_list ≠ [] → ((s.allocate N).2).numBlocks = s.numBlocks) ∧
    (∀ s : BlockState,
      (s.allocate_block N).numBlocks = s.numBlocks + 1 ∧
      (s.allocate_block N).free_list.length = N + s.free_list.length) := by
  obtain ⟨M, rfl⟩ : ∃ M, N = M + 1 := ⟨N - 1, by omega⟩
  obtain ⟨l1, hl1⟩ := afterK_spec (M + 1) 1 (by omega) (by omega)
  obtain ⟨lN, hlN⟩ := afterK_N (M + 1) (by omega)
  refine ⟨by rw [hl1], by rw [hlN], ?_, fun k hk => afterK_alloc_fst (M + 1) k hk, ?_, ?_, ?_⟩
  · show ((BlockState.afterK (M + 1) (M + 1)).allocate (M + 1)).2.numBlocks = 2
    rw [hlN, BlockState.allocate_nil_succ]
  · rw [hlN, BlockState.allocate_nil_succ]
    simp
  · intro s hs
    obtain ⟨nB, fl, lv⟩ := s
    cases fl with
    | nil => exact absurd rfl hs
    | cons p rest => rw [BlockState.allocate_cons]
  · intro s
    refine ⟨rfl, ?_⟩
    simp [BlockState.allocate_block]

/-- Witness for `block_growth_after_N` at `N = 2`: after 2
allocations one chunk exists, the 3rd allocation grows to 2 chunks and
returns slot 1 of chunk 1. -/
theorem block_growth_after_N_witness :
    (BlockState.afterK 2 2).numBlocks = 1 ∧
    (BlockState.afterK 2 3).numBlocks = 2 ∧
    ((BlockState.afterK 2 2).allocate 2).1 = some (1, 1) :=
  ⟨(block_growth_after_N 2 (by norm_num)).2.1,
   (block_growth_after_N 2 (by norm_num)).2.2.1,
   (block_growth_after_N 2 (by norm_num)).2.2.2.2.1⟩

/-- C6: freeing a live pointer `p` and immediately allocating again
returns `p`: `free` pushes `p` onto the free-list stack and the next
`allocate` pops it (last-freed, first-reused). -/
theorem block_free_then_allocate_returns_p (N : Nat) (s : BlockState) (p : Ptr)
    (hp : p ∈ s.live) : ((s.free p).allocate N).1 = some p := by
  obtain ⟨nB, fl, lv⟩ := s
  rw [show (⟨nB, fl, lv⟩ : BlockState).free p = ⟨nB, p :: fl, lv.erase p⟩ from rfl,
    BlockState.allocate_cons]

/-- Witness for `block_free_then_allocate_returns_p`: one chunk of one
slot, the slot live, freed and immediately reallocated. -/
theorem block_free_then_allocate_returns_p_witness :
    (((⟨1, [], [(0, 0)]⟩ : BlockState).free (0, 0)).allocate 1).1 = some (0, 0) :=
  block_free_then_allocate_returns_p 1 ⟨1, [], [(0, 0)]⟩ (0, 0) (by decide)

/-- C10: in the src/Allocator.hpp variant, `free(nullptr)` is a
no-op: the state (free list and blocks) is returned untouched and the
list of destructor calls performed is empty. -/
theorem block_free_null_noop (s : BlockState) : s.freeChecked none = (s, []) :=
  rfl

/-- C1 (code-bug evidence): `BlockAllocator<T, 1>` in
src/allocator.hpp — `allocate()` returns the only slot `(0, 0)`,
`free` destructs it and puts it on the free list (nothing is live),
yet the teardown loop of `~BlockAllocator` still invokes `~T` on
slot `(0, 0)`: it destructs a freed slot a second time, which the
claim forbids. -/
theorem block_teardown_destructs_freed_slot :
    (BlockState.fresh.allocate 1).1 = some (0, 0) ∧
    (0, 0) ∈ ((BlockState.fresh.allocate 1).2.free (0, 0)).free_list ∧
    ((BlockState.fresh.allocate 1).2.free (0, 0)).live = [] ∧
    ((BlockState.fresh.allocate 1).2.free (0, 0)).teardownDtorCalls 1 = [(0, 0)] := by
  decide

/-- A fresh allocator satisfies the slot-partition invariant. -/
lemma blockInv_fresh : BlockInv BlockState.fresh := by
  simp [BlockInv, BlockState.fresh]

/-- Popping the free-list back into the live set preserves the
invariant: the combined address list is merely permuted. -/
lemma blockInv_pop (nB : Nat) (p : Ptr) (rest live : List Ptr)
    (h : BlockInv ⟨nB, p :: rest, live⟩) : BlockInv ⟨nB, rest, p :: live⟩ := by
  obtain ⟨hnd, hbd⟩ := h
  have hperm : List.Perm (rest ++ p :: live) ((p :: rest) ++ live) :=
    List.perm_middle
  constructor
  · exact hperm.nodup_iff.mpr hnd
  · intro q hq
    exact hbd q (hperm.mem_iff.mp hq)

/-- Growing by one chunk from an empty free list preserves the
invariant: the `N` new addresses are pairwise distinct, live in the
new chunk (index `numBlocks`), and hence collide with no recorded
address, all of which lie in older chunks. -/
lemma blockInv_allocate_block (N nB : Nat) (live : List Ptr)
    (h : BlockInv ⟨nB, [], live⟩) :
    BlockInv (BlockState.allocate_block N ⟨nB, [], live⟩) := by
  obtain ⟨hnd, hbd⟩ := h
  have hlive : live.Nodup := by simpa using hnd
  have hbd2 : ∀ q ∈ live, q.1 < nB := fun q hq => hbd q (by simpa using hq)
  have hinj : Function.Injective (fun i => ((nB, i) : Ptr)) := by
    intro a b hab
    simpa using congrArg Prod.snd hab
  have hnew : (((List.range N).map (fun i => ((nB, i) : Ptr))).reverse).Nodup :=
    List.nodup_reverse.mpr ((List.nodup_range N).map hinj)
  have hmem : ∀ q ∈ ((List.range N).map (fun i => ((nB, i) : Ptr))).reverse, q.1 = nB := by
    intro q hq
    simp only [List.mem_reverse, List.mem_map, List.mem_range] at hq
    obtain ⟨i, _, rfl⟩ := hq
    rfl
  constructor
  · show ((((List.range N).map (fun i => ((nB, i) : Ptr))).reverse ++ []) ++ live).Nodup
    rw [List.append_nil]
    refine List.Nodup.append hnew hlive ?_
    intro q hq1 hq2
    have h1 := hmem q hq1
    have h2 := hbd2 q hq2
    omega
  · intro q hq
    show q.1 < nB + 1
    have hq2 : q ∈ (((List.range N).map (fun i => ((nB, i) : Ptr))).reverse ++ []) ++ live :=
      hq
    rw [List.append_nil] at hq2
    rcases List.mem_append.mp hq2 with h1 | h2
    · rw [hmem q h1]
      omega
    · exact Nat.lt_succ_of_lt (hbd2 q h2)

/-- `allocate` preserves the slot-partition invariant. -/
lemma blockInv_allocate (N : Nat) (s : BlockState) (h : BlockInv s) :
    BlockInv (s.allocate N).2 := by
  obtain ⟨nB, fl, lv⟩ := s
  cases fl with
  | cons p rest =>
    rw [BlockState.allocate_cons]
    exact blockInv_pop nB p rest lv h
  | nil =>
    cases N with
    | zero =>
      rw [BlockState.allocate_nil_zero]
      obtain ⟨hnd, hbd⟩ := h
      exact ⟨hnd, fun q hq => Nat.lt_succ_of_lt (hbd q hq)⟩
    | succ M =>
      rw [BlockState.allocate_nil_succ]
      have hb := blockInv_allocate_block (M + 1) nB lv h
      have heq : BlockState.allocate_block (M + 1) ⟨nB, [], lv⟩
          = ⟨nB + 1, (nB, M) :: ((List.range M).map (fun i => ((nB, i) : Ptr))).reverse,
              lv⟩ := by
        simp [BlockState.allocate_block, rev_map_range_succ]
      rw [heq] at hb
      exact blockInv_pop _ _ _ _ hb

/-- `free` on a live pointer preserves the slot-partition invariant:
the address moves from the live set to the free list. -/
lemma blockInv_free (s : BlockState) (p : Ptr) (h : BlockInv s) (hp : p ∈ s.live) :
    BlockInv (s.free p) := by
  obtain ⟨hnd, hbd⟩ := h
  have hlv : s.live.Nodup := hnd.of_append_right
  have hdisj := List.disjoint_of_nodup_append hnd
  have hpnotfl : p ∉ s.free_list := fun hmem => hdisj hmem hp
  have hsub : List.Sublist (s.free_list ++ s.live.erase p) (s.free_list ++ s.live) :=
    List.Sublist.append_left (List.erase_sublist p s.live) s.free_list
  constructor
  · show ((p :: s.free_list) ++ s.live.erase p).Nodup
    rw [List.cons_append, List.nodup_cons]
    refine ⟨?_, hnd.sublist hsub⟩
    intro hmem
    rcases List.mem_append.mp hmem with h1 | h2
    · exact hpnotfl h1
    · exact hlv.not_mem_erase h2
  · intro q hq
    show q.1 < s.numBlocks
    have hq2 : q ∈ (p :: s.free_list) ++ s.live.erase p := hq
    rw [List.cons_append] at hq2
    rcases List.mem_cons.mp hq2 with rfl | h1
    · exact hbd q (List.mem_append.mpr (Or.inr hp))
    · rcases List.mem_append.mp h1 with h2 | h3
      · exact hbd q (List.mem_append.mpr (Or.inl h2))
      · exact hbd q (List.mem_append.mpr (Or.inr (List.erase_subset p s.live h3)))

/-- Every state reachable under caller discipline satisfies the
slot-partition invariant. -/
lemma reachable_inv (N : Nat) (s : BlockState) (h : Reachable N s) : BlockInv s := by
  induction h with
  | start => exact blockInv_fresh
  | alloc s _ ih => exact blockInv_allocate N s ih
  | dealloc s p _ hp ih => exact blockInv_free s p ih hp

/-- Distinctness of live slots in the bookkeeping model: in every
state reachable under caller discipline (`free` only on currently
live pointers), the ghost live list is pairwise distinct.  Over
src/Allocator.hpp — whose chunk buffers stay allocated and pairwise
disjoint for the allocator's lifetime, so distinct slot pairs are
distinct addresses — this is the no-aliasing property of the spec.
Over src/allocator.hpp it speaks only of slot identities, not of
machine addresses: there, growth can release live chunks' backing
memory, so equal addresses behind distinct slot pairs are possible
(see `block_realloc_frees_live_chunk`). -/
theorem block_live_slots_distinct (N : Nat) (s : BlockState)
    (h : Reachable N s) : s.live.Pairwise (· ≠ ·) :=
  ((reachable_inv N s h).1).of_append_right

/-- Instance of `block_live_slots_distinct` at a concrete reachable
state: two allocations from a fresh allocator with block size 2. -/
theorem block_live_slots_distinct_witness :
    ((BlockState.fresh.allocate 2).2.allocate 2).2.live.Pairwise (· ≠ ·) :=
  block_live_slots_distinct 2 _
    (Reachable.alloc _ (Reachable.alloc _ Reachable.start))

/-- C7 (code-bug evidence): `BlockAllocator<T, 1>` of
src/allocator.hpp, three `allocate()` calls, no frees — caller
discipline trivially respected.  The second call's `emplace_back`
reallocates `blocks` (capacity 1 to 2), copying and destroying
`Block` 0, whose `~Block` frees chunk 0's backing memory while slot
`(0, 0)` — the pointer returned by call 1 — is live; the third call's
reallocation frees that region a second time (a double free) together
with live chunk 1's memory.  The backing allocator may therefore
place the third chunk in chunk 0's released region, making the
third returned pointer equal to the still-live first one: the code
does not deliver the claimed distinctness of live pointers. -/
theorem block_realloc_frees_live_chunk :
    (0, 0) ∈ (afterKMem 1 3).live ∧
    (1, 0) ∈ (afterKMem 1 3).live ∧
    (afterKMem 1 2).released = [0] ∧
    (afterKMem 1 3).released = [0, 0, 1] := by
  decide

end Alloc
